import Mathlib

/-!
Shallow embedding of the PyMIC semi/weakly-supervised training loops:
  * `src/pymic/net_run_ssl/ssl_em.py`   (`SSLSegAgent`)
  * `src/pymic/net_run_wsl/wsl_mumford_shah.py` (`WSL_MumfordShah`)

Modelling conventions:
  * A tensor batch is a `List` of abstract samples along the batch axis
    (`dim = 0`); `torch.cat` is `List.append`, `torch.tensor_split` at
    index `n0` is `take`/`drop`.
  * A network output is either one tensor or a tuple/list of tensors
    (multi-head network), modelled by `NetOut`.  `torch.tensor_split`
    requires a plain tensor as its first argument, so applying it to a
    tuple/list output raises `TypeError`; the embedding returns `none`
    in that situation.  Similarly `outputs[0]` on an empty tuple raises.
  * Scalar float values are modelled by `ℝ`.  External collaborators
    (the network, `get_loss_value`, `EntropyLoss`, `MumfordShahLoss`,
    and the argmax/soft-label/reshape/classwise-dice pipeline from
    `pymic.loss.seg.util`) are abstract function parameters bundled
    into an environment structure; `convert_tensor_type` is a dtype
    conversion and is modelled as the identity.
  * A `DataLoader` is a nonempty list of batches; an iterator is the
    list of batches not yet consumed.  The `try ... except
    StopIteration` restart pattern of the source is `nextBatch`.
    Reshuffling on restart is abstracted: a fresh iterator yields the
    dataset's batches in its list order.
  * `self.glob_it` is owned by the external training driver and is not
    written anywhere inside `training()`, so it is a fixed parameter of
    one epoch.
  * `optimizer.zero_grad() / loss.backward() / optimizer.step() /
    scheduler.step()` mutate external state only and are not modelled.
  * With `iter_valid = 0` the Python `training()` methods raise
    (`consis_w` resp. `regular_w` is an unbound name at the dict
    construction); the embedding mirrors this by threading the loop
    variable as an `Option` that is still `none` after zero iterations.
-/

variable {T L B : Type}

/-- A labeled batch record: `data_lab['image']` and `data_lab['label_prob']`. -/
structure LabBatch (T L : Type) where
  image : List T
  label_prob : List L

/-- An unlabeled batch record: `data_unlab['image']`. -/
structure UnlabBatch (T : Type) where
  image : List T

/-- Output of the network on a batch: a single prediction tensor, or a
tuple/list of prediction tensors for a multi-head network. -/
inductive NetOut (T : Type) where
  | single : List T → NetOut T
  | multi : List (List T) → NetOut T

/-- `outputs[0]` for a tuple/list output, the tensor itself otherwise.
Indexing an empty tuple raises, hence `Option`. -/
def primaryOut : NetOut T → Option (List T)
  | NetOut.single t => some t
  | NetOut.multi ts => ts.head?

/-- External collaborators of `SSLSegAgent.training`:
`self.net`, `self.get_loss_value(data_lab, x0, p0, y0)`,
`EntropyLoss()({"prediction": outputs, "softmax": True})`, and the
Dice pipeline `argmax` / `get_soft_label` /
`reshape_prediction_and_ground_truth` / `get_classwise_dice` applied to
the primary prediction and the labels. -/
structure SSLEnv (T L : Type) where
  net : List T → NetOut T
  sup_loss : LabBatch T L → List T → List T → List L → ℝ
  entropy_loss : List T → ℝ
  dice : List T → List L → List ℝ

/-- External collaborators of `WSL_MumfordShah.training`:
`self.net`, `self.get_loss_value(data, outputs, y)`,
`MumfordShahLoss(wsl_cfg)({"prediction": outputs, "image": inputs})`,
and the Dice pipeline. -/
structure WSLEnv (T L : Type) where
  net : List T → NetOut T
  sup_loss : LabBatch T L → NetOut T → List L → ℝ
  ms_loss : NetOut T → List T → ℝ
  dice : List T → List L → List ℝ

/-- The `semi_supervised_learning` configuration section together with
`training.iter_max`.  An `Option` field is `none` when the key is
absent, so `Option.getD` is Python's `dict.get(key, default)`.  The
`ramp_up_length` key may itself hold `null`, hence the nested option. -/
structure SSLConfig where
  consis_w : Option ℝ
  iter_sup : Option ℕ
  ramp_up_length : Option (Option ℝ)
  iter_max : ℕ

/-- The `weakly_supervised_learning` configuration section together
with `training.iter_max`. -/
structure WSLConfig where
  regularize_w : Option ℝ
  iter_sup : Option ℕ
  ramp_up_length : Option (Option ℝ)
  iter_max : ℕ

/-- `SSLSegAgent.get_consistency_weight_with_rampup` (ssl_em.py lines
92-101): if the ramp length is `None` or `0` return `w0` unchanged,
otherwise clip `current` to `[0, rampup_length]` (numpy clip is
`min(a_max, max(a, a_min))`), set `phase = 1 - current/rampup_length`,
and return `w0 * exp(-5 * phase * phase)`. -/
noncomputable def get_consistency_weight_with_rampup
    (w0 current : ℝ) (rampup_length : Option ℝ) : ℝ :=
  match rampup_length with
  | none => w0
  | some len =>
    if len = 0 then w0
    else
      let c := min len (max current 0)
      let phase := 1 - c / len
      w0 * Real.exp (-5 * phase * phase)

/-- Modelled from the spec: `sigmoid_rampup` is imported by
`wsl_mumford_shah.py` from `pymic.util.ramps`, whose source is not
included under `src/`.  Per the spec (section 4.1 and 4.4) it is the
same ramp-up mechanics as the exponential curve: the step is clamped to
`[0, ramp_length]`, the multiplier is `exp(-5 * phase^2)` for
`phase = 1 - step/ramp_length`, and a `ramp_length` of zero means no
ramp (full multiplier `1`). -/
noncomputable def sigmoid_rampup (current rampup_length : ℝ) : ℝ :=
  if rampup_length = 0 then 1
  else
    let c := min rampup_length (max current 0)
    let phase := 1 - c / rampup_length
    Real.exp (-5 * phase * phase)

/-- The consistency weight actually applied in one semi-supervised
training step (ssl_em.py lines 157-163): read `consis_w` (default
`0.1`), `iter_sup` (default `0`) and `ramp_up_length` (default
`iter_max`) from the configuration, evaluate the ramp-up scheduler at
the global step, then force the weight to `0` whenever
`glob_it < iter_sup`. -/
noncomputable def ssl_applied_consis_w (cfg : SSLConfig) (glob_it : ℕ) : ℝ :=
  let consis_w0 := cfg.consis_w.getD 0.1
  let iter_sup := cfg.iter_sup.getD 0
  let ramp_up_length := cfg.ramp_up_length.getD (some (cfg.iter_max : ℝ))
  let consis_w := get_consistency_weight_with_rampup consis_w0 glob_it ramp_up_length
  if glob_it < iter_sup then 0 else consis_w

/-- The regularization weight actually applied in one weakly-supervised
training step (wsl_mumford_shah.py lines 57-63): `regular_w` starts at
`0`; only when `glob_it > iter_sup` (default `0`) it becomes
`regularize_w` (default `0.1`), further multiplied by
`sigmoid_rampup(glob_it, ramp_up_length)` when the ramp length (default
`iter_max`) is not `None` and `glob_it < ramp_up_length`. -/
noncomputable def wsl_applied_regular_w (cfg : WSLConfig) (glob_it : ℕ) : ℝ :=
  let ramp_up_length := cfg.ramp_up_length.getD (some (cfg.iter_max : ℝ))
  if cfg.iter_sup.getD 0 < glob_it then
    match ramp_up_length with
    | none => cfg.regularize_w.getD 0.1
    | some len =>
      if (glob_it : ℝ) < len then
        cfg.regularize_w.getD 0.1 * sigmoid_rampup glob_it len
      else cfg.regularize_w.getD 0.1
  else 0

/-- Instrumented invocation of the network: the counter is incremented
exactly where the source calls `self.net(...)`, so the final counter
value is the number of forward passes performed. -/
def callNet (net : List T → NetOut T) (count : ℕ) (b : List T) :
    ℕ × NetOut T :=
  (count + 1, net b)

/-- Everything one semi-supervised training step computes
(ssl_em.py lines 124-180), plus the forward-pass count. -/
structure SSLStepOut (T L : Type) where
  outputs : List T
  p0 : List T
  p1 : List T
  loss_sup : ℝ
  loss_unsup : ℝ
  consis_w : ℝ
  loss : ℝ
  dice_list : List ℝ
  fwd_count : ℕ

/-- One semi-supervised training step (ssl_em.py lines 124-180):
concatenate the labeled images `x0` and unlabeled images `x1`, run the
network once on the concatenated batch, split the output at
`n0 = x0.shape[0]` with `torch.tensor_split` (which raises on a
tuple/list output, hence `none`), compute the supervised loss on the
first part against `y0`, the entropy loss on the whole unsplit output,
the gated ramped consistency weight, the combined total loss, and the
per-class Dice vector of the labeled part.  The `isinstance(p0, tuple)`
guard of lines 174-175 can never fire: `torch.tensor_split` only ever
returns plain tensors. -/
noncomputable def ssl_step (env : SSLEnv T L) (cfg : SSLConfig)
    (glob_it : ℕ) (data_lab : LabBatch T L) (data_unlab : UnlabBatch T) :
    Option (SSLStepOut T L) :=
  let x0 := data_lab.image
  let y0 := data_lab.label_prob
  let x1 := data_unlab.image
  let inputs := x0 ++ x1
  let fwd := callNet env.net 0 inputs
  let n0 := x0.length
  match fwd.2 with
  | NetOut.multi _ => none
  | NetOut.single o =>
    let p0 := o.take n0
    let p1 := o.drop n0
    let loss_sup := env.sup_loss data_lab x0 p0 y0
    let loss_unsup := env.entropy_loss o
    let consis_w := ssl_applied_consis_w cfg glob_it
    let loss := loss_sup + consis_w * loss_unsup
    some { outputs := o, p0 := p0, p1 := p1, loss_sup := loss_sup,
           loss_unsup := loss_unsup, consis_w := consis_w, loss := loss,
           dice_list := env.dice p0 y0, fwd_count := fwd.1 }

/-- Everything one weakly-supervised training step computes
(wsl_mumford_shah.py lines 42-80). -/
structure WSLStepOut (T L : Type) where
  outputs : NetOut T
  primary : List T
  loss_sup : ℝ
  loss_reg : ℝ
  regular_w : ℝ
  loss : ℝ
  dice_list : List ℝ

/-- One weakly-supervised training step (wsl_mumford_shah.py lines
42-80): one forward pass on the (weakly) labeled batch, supervised loss
on the raw output, Mumford-Shah regularization loss on (output, input
image), gated ramped weight, combined total loss; for Dice, a
tuple/list output is replaced by its first element (`outputs[0]`
raises on an empty tuple, hence `Option`). -/
noncomputable def wsl_step (env : WSLEnv T L) (cfg : WSLConfig)
    (glob_it : ℕ) (data : LabBatch T L) : Option (WSLStepOut T L) :=
  let inputs := data.image
  let y := data.label_prob
  let outputs := env.net inputs
  let loss_sup := env.sup_loss data outputs y
  let loss_reg := env.ms_loss outputs inputs
  let regular_w := wsl_applied_regular_w cfg glob_it
  let loss := loss_sup + regular_w * loss_reg
  match primaryOut outputs with
  | none => none
  | some p =>
    some { outputs := outputs, primary := p, loss_sup := loss_sup,
           loss_reg := loss_reg, regular_w := regular_w, loss := loss,
           dice_list := env.dice p y }

/-- The `try next / except StopIteration: restart and next` pattern
(ssl_em.py lines 113-122, wsl_mumford_shah.py lines 36-40): pull the
next batch from the live iterator; if it is exhausted, create a fresh
iterator over the same dataset and pull its first batch.  The second
pull is not guarded, so an empty dataset still raises (`none`). -/
def nextBatch (loader cursor : List B) : Option (B × List B) :=
  match cursor with
  | b :: rest => some (b, rest)
  | [] =>
    match loader with
    | b :: rest => some (b, rest)
    | [] => none

/-- Loop state of one semi-supervised training epoch: the running
scalar sums, the collected per-step Dice vectors, the last value of the
`consis_w` loop variable, the two iterator cursors, and (for
instrumentation) how many batches were consumed from each stream and
the per-step results in order. -/
structure SSLAccum (T L : Type) where
  train_loss : ℝ
  train_loss_sup : ℝ
  train_loss_unsup : ℝ
  dice_rows : List (List ℝ)
  last_w : Option ℝ
  cur_lab : List (LabBatch T L)
  cur_unlab : List (UnlabBatch T)
  lab_used : ℕ
  unlab_used : ℕ
  steps : List (SSLStepOut T L)

/-- The `for it in range(iter_valid)` loop of `SSLSegAgent.training`
(ssl_em.py lines 112-180): each iteration pulls one labeled and one
unlabeled batch (restarting an exhausted stream), runs one step, and
accumulates. -/
noncomputable def ssl_epoch_loop (env : SSLEnv T L) (cfg : SSLConfig)
    (glob_it : ℕ) (loader_lab : List (LabBatch T L))
    (loader_unlab : List (UnlabBatch T)) :
    ℕ → SSLAccum T L → Option (SSLAccum T L)
  | 0, acc => some acc
  | Nat.succ n, acc =>
    match nextBatch loader_lab acc.cur_lab with
    | none => none
    | some (data_lab, cl) =>
      match nextBatch loader_unlab acc.cur_unlab with
      | none => none
      | some (data_unlab, cu) =>
        match ssl_step env cfg glob_it data_lab data_unlab with
        | none => none
        | some st =>
          ssl_epoch_loop env cfg glob_it loader_lab loader_unlab n
            { train_loss := acc.train_loss + st.loss,
              train_loss_sup := acc.train_loss_sup + st.loss_sup,
              train_loss_unsup := acc.train_loss_unsup + st.loss_unsup,
              dice_rows := acc.dice_rows ++ [st.dice_list],
              last_w := some st.consis_w,
              cur_lab := cl,
              cur_unlab := cu,
              lab_used := acc.lab_used + 1,
              unlab_used := acc.unlab_used + 1,
              steps := acc.steps ++ [st] }

/-- The scalar epoch record `train_scalers` returned by `training`. -/
structure SSLScalars where
  loss : ℝ
  loss_sup : ℝ
  loss_unsup : ℝ
  consis_w : ℝ
  avg_dice : ℝ
  class_dice : List ℝ

/-- `numpy` mean of a vector: sum divided by length. -/
noncomputable def listMean (xs : List ℝ) : ℝ := xs.sum / xs.length

/-- `np.asarray(rows).mean(axis = 0)`: the column-wise mean of a stack
of equal-length rows (the column count read off the first row). -/
noncomputable def axisMean (rows : List (List ℝ)) : List ℝ :=
  (List.range (rows.headD []).length).map
    (fun j => (rows.map (fun r => r.getD j 0)).sum / rows.length)

/-- `SSLSegAgent.training` (ssl_em.py lines 103-190): run the epoch
loop from the given cursors, then divide each summed loss by
`iter_valid`, average the stacked Dice vectors per class, average that
vector for `avg_dice`, and record the final value of the `consis_w`
loop variable (still unbound after zero iterations, hence `none`).
The final accumulator is returned alongside for instrumentation. -/
noncomputable def ssl_training (env : SSLEnv T L) (cfg : SSLConfig)
    (glob_it iter_valid : ℕ) (loader_lab : List (LabBatch T L))
    (loader_unlab : List (UnlabBatch T)) (cur_lab : List (LabBatch T L))
    (cur_unlab : List (UnlabBatch T)) :
    Option (SSLScalars × SSLAccum T L) :=
  let acc0 : SSLAccum T L :=
    { train_loss := 0, train_loss_sup := 0, train_loss_unsup := 0,
      dice_rows := [], last_w := none, cur_lab := cur_lab,
      cur_unlab := cur_unlab, lab_used := 0, unlab_used := 0, steps := [] }
  match ssl_epoch_loop env cfg glob_it loader_lab loader_unlab iter_valid acc0 with
  | none => none
  | some acc =>
    match acc.last_w with
    | none => none
    | some cw =>
      let train_cls_dice := axisMean acc.dice_rows
      some ({ loss := acc.train_loss / iter_valid,
              loss_sup := acc.train_loss_sup / iter_valid,
              loss_unsup := acc.train_loss_unsup / iter_valid,
              consis_w := cw,
              avg_dice := listMean train_cls_dice,
              class_dice := train_cls_dice }, acc)

/-- Loop state of one weakly-supervised training epoch. -/
structure WSLAccum (T L : Type) where
  train_loss : ℝ
  train_loss_sup : ℝ
  train_loss_reg : ℝ
  dice_rows : List (List ℝ)
  last_w : Option ℝ
  cur : List (LabBatch T L)
  used : ℕ
  steps : List (WSLStepOut T L)

/-- The `for it in range(iter_valid)` loop of `WSL_MumfordShah.training`
(wsl_mumford_shah.py lines 35-80). -/
noncomputable def wsl_epoch_loop (env : WSLEnv T L) (cfg : WSLConfig)
    (glob_it : ℕ) (loader : List (LabBatch T L)) :
    ℕ → WSLAccum T L → Option (WSLAccum T L)
  | 0, acc => some acc
  | Nat.succ n, acc =>
    match nextBatch loader acc.cur with
    | none => none
    | some (data, c) =>
      match wsl_step env cfg glob_it data with
      | none => none
      | some st =>
        wsl_epoch_loop env cfg glob_it loader n
          { train_loss := acc.train_loss + st.loss,
            train_loss_sup := acc.train_loss_sup + st.loss_sup,
            train_loss_reg := acc.train_loss_reg + st.loss_reg,
            dice_rows := acc.dice_rows ++ [st.dice_list],
            last_w := some st.regular_w,
            cur := c,
            used := acc.used + 1,
            steps := acc.steps ++ [st] }

/-- The scalar epoch record returned by `WSL_MumfordShah.training`. -/
structure WSLScalars where
  loss : ℝ
  loss_sup : ℝ
  loss_reg : ℝ
  regular_w : ℝ
  avg_dice : ℝ
  class_dice : List ℝ

/-- `WSL_MumfordShah.training` (wsl_mumford_shah.py lines 24-90). -/
noncomputable def wsl_training (env : WSLEnv T L) (cfg : WSLConfig)
    (glob_it iter_valid : ℕ) (loader : List (LabBatch T L))
    (cur : List (LabBatch T L)) : Option (WSLScalars × WSLAccum T L) :=
  let acc0 : WSLAccum T L :=
    { train_loss := 0, train_loss_sup := 0, train_loss_reg := 0,
      dice_rows := [], last_w := none, cur := cur, used := 0, steps := [] }
  match wsl_epoch_loop env cfg glob_it loader iter_valid acc0 with
  | none => none
  | some acc =>
    match acc.last_w with
    | none => none
    | some rw =>
      let train_cls_dice := axisMean acc.dice_rows
      some ({ loss := acc.train_loss / iter_valid,
              loss_sup := acc.train_loss_sup / iter_valid,
              loss_reg := acc.train_loss_reg / iter_valid,
              regular_w := rw,
              avg_dice := listMean train_cls_dice,
              class_dice := train_cls_dice }, acc)

/-! Concrete instances used by witnesses and counterexamples. -/

/-- A concrete labeled batch with one sample. -/
def unitLab : LabBatch Unit Unit := ⟨[()], [()]⟩

/-- A concrete labeled batch with two samples. -/
def unitLab2 : LabBatch Unit Unit := ⟨[(), ()], [(), ()]⟩

/-- A concrete unlabeled batch with one sample. -/
def unitUnlab : UnlabBatch Unit := ⟨[()]⟩

/-- A concrete semi-supervised environment whose network is the
identity (one head). -/
noncomputable def envId : SSLEnv Unit Unit :=
  { net := fun b => NetOut.single b,
    sup_loss := fun _ _ _ _ => 0,
    entropy_loss := fun _ => 1,
    dice := fun _ _ => [1, 1] }

/-- A concrete semi-supervised environment whose network has two heads
(returns a tuple of two tensors). -/
noncomputable def envMulti : SSLEnv Unit Unit :=
  { net := fun _ => NetOut.multi [[(), ()], [(), ()]],
    sup_loss := fun _ _ _ _ => 0,
    entropy_loss := fun _ => 1,
    dice := fun _ _ => [1, 1] }

/-- A concrete weakly-supervised environment whose network has two
heads. -/
noncomputable def envWMulti : WSLEnv Unit Unit :=
  { net := fun _ => NetOut.multi [[(), ()], [(), ()]],
    sup_loss := fun _ _ _ => 0,
    ms_loss := fun _ _ => 2,
    dice := fun _ _ => [1, 1] }

/-- A concrete weakly-supervised environment whose network is the
identity (one head). -/
noncomputable def envWId : WSLEnv Unit Unit :=
  { net := fun b => NetOut.single b,
    sup_loss := fun _ _ _ => 0,
    ms_loss := fun _ _ => 2,
    dice := fun _ _ => [1, 1] }

/-- A configuration with every optional key absent. -/
def sslCfg0 : SSLConfig := ⟨none, none, none, 100⟩

/-- A configuration with `consis_w = 2`, `iter_sup = 5`, and a `null`
ramp length. -/
noncomputable def sslCfgA : SSLConfig := ⟨some 2, some 5, some none, 100⟩

/-- A configuration with `consis_w = 3`, `iter_sup = 0`, and a `null`
ramp length. -/
noncomputable def sslCfgB : SSLConfig := ⟨some 3, some 0, some none, 100⟩

/-- A weakly-supervised configuration with every optional key absent
except `iter_sup = 5`. -/
def wslCfgA : WSLConfig := ⟨none, some 5, none, 100⟩

/-- A weakly-supervised configuration with `regularize_w = 3` and a
`null` ramp length. -/
noncomputable def wslCfgB : WSLConfig := ⟨some 3, some 5, some none, 100⟩

/-! Helper lemmas about the schedulers. -/

theorem rampup_of_none (w0 current : ℝ) :
    get_consistency_weight_with_rampup w0 current none = w0 := rfl

theorem rampup_of_zero (w0 current : ℝ) :
    get_consistency_weight_with_rampup w0 current (some 0) = w0 := by
  simp [get_consistency_weight_with_rampup]

theorem rampup_of_ne_zero (w0 current len : ℝ) (h : len ≠ 0) :
    get_consistency_weight_with_rampup w0 current (some len) =
      w0 * Real.exp (-5 * (1 - min len (max current 0) / len)
        * (1 - min len (max current 0) / len)) := by
  simp [get_consistency_weight_with_rampup, h]

theorem clip_of_mem (s len : ℝ) (h0 : 0 ≤ s) (h1 : s ≤ len) :
    min len (max s 0) = s := by
  rw [max_eq_left h0, min_eq_right h1]

theorem sigmoid_rampup_pos (current len : ℝ) : 0 < sigmoid_rampup current len := by
  unfold sigmoid_rampup
  split
  · norm_num
  · exact Real.exp_pos _

/-- Claim C5: for every nonnegative base weight `w0` and every positive ramp
length `len`, the ramp-up weight function is monotonically non-decreasing in
the step on `[0, len]`, equals `w0` at step `len`, equals `w0 * exp (-5)` at
step `0`, equals `w0 * exp (-5 * (1 - s / len) ^ 2)` for every step `s` in
`[0, len]`, and in general applies that formula to the step clamped to
`[0, len]`; a `None` or zero ramp length returns the base unchanged for any
step. -/
theorem ramp_up_weight_spec (w0 len : ℝ) (hw : 0 ≤ w0) (hlen : 0 < len) :
    (∀ s t : ℝ, 0 ≤ s → s ≤ t → t ≤ len →
      get_consistency_weight_with_rampup w0 s (some len) ≤
        get_consistency_weight_with_rampup w0 t (some len)) ∧
    get_consistency_weight_with_rampup w0 len (some len) = w0 ∧
    get_consistency_weight_with_rampup w0 0 (some len) = w0 * Real.exp (-5) ∧
    (∀ s : ℝ, 0 ≤ s → s ≤ len →
      get_consistency_weight_with_rampup w0 s (some len) =
        w0 * Real.exp (-5 * (1 - s / len) ^ 2)) ∧
    (∀ s : ℝ,
      get_consistency_weight_with_rampup w0 s (some len) =
        w0 * Real.exp (-5 * (1 - min len (max s 0) / len) ^ 2)) ∧
    (∀ w s : ℝ, get_consistency_weight_with_rampup w s none = w ∧
      get_consistency_weight_with_rampup w s (some 0) = w) := by
  have hne : len ≠ 0 := hlen.ne'
  refine ⟨?_, ?_, ?_, ?_, ?_, ?_⟩
  · intro s t hs hst htl
    rw [rampup_of_ne_zero w0 s len hne, rampup_of_ne_zero w0 t len hne,
      clip_of_mem s len hs (hst.trans htl), clip_of_mem t len (hs.trans hst) htl]
    have h1 : s / len ≤ t / len := by
      exact div_le_div_of_nonneg_right hst hlen.le
    have h2 : t / len ≤ 1 := (div_le_one hlen).2 htl
    refine mul_le_mul_of_nonneg_left (Real.exp_le_exp.2 ?_) hw
    nlinarith [mul_self_le_mul_self (by linarith : (0:ℝ) ≤ 1 - t / len)
      (by linarith : 1 - t / len ≤ 1 - s / len)]
  · rw [rampup_of_ne_zero w0 len len hne, clip_of_mem len len hlen.le le_rfl,
      div_self hne]
    norm_num
  · rw [rampup_of_ne_zero w0 0 len hne, clip_of_mem 0 len le_rfl hlen.le,
      zero_div]
    norm_num
  · intro s hs hsl
    rw [rampup_of_ne_zero w0 s len hne, clip_of_mem s len hs hsl]
    ring_nf
  · intro s
    rw [rampup_of_ne_zero w0 s len hne]
    ring_nf
  · intro w s
    exact ⟨rampup_of_none w s, rampup_of_zero w s⟩

/-- Witness for C5: at base weight `1` and ramp length `1` the hypotheses
hold and the weight at full ramp is exactly the base. -/
theorem ramp_up_weight_spec_witness :
    get_consistency_weight_with_rampup 1 1 (some 1) = 1 :=
  (ramp_up_weight_spec 1 1 (by norm_num) (by norm_num)).2.1

/-! Helper lemmas evaluating one training step. -/

theorem ssl_step_eq_single (env : SSLEnv T L) (cfg : SSLConfig) (glob_it : ℕ)
    (dl : LabBatch T L) (du : UnlabBatch T) (o : List T)
    (h : env.net (dl.image ++ du.image) = NetOut.single o) :
    ssl_step env cfg glob_it dl du =
      some { outputs := o,
             p0 := o.take dl.image.length,
             p1 := o.drop dl.image.length,
             loss_sup := env.sup_loss dl dl.image (o.take dl.image.length)
               dl.label_prob,
             loss_unsup := env.entropy_loss o,
             consis_w := ssl_applied_consis_w cfg glob_it,
             loss := env.sup_loss dl dl.image (o.take dl.image.length)
                 dl.label_prob
               + ssl_applied_consis_w cfg glob_it * env.entropy_loss o,
             dice_list := env.dice (o.take dl.image.length) dl.label_prob,
             fwd_count := 1 } := by
  simp only [ssl_step, callNet, h]

theorem ssl_step_eq_none (env : SSLEnv T L) (cfg : SSLConfig) (glob_it : ℕ)
    (dl : LabBatch T L) (du : UnlabBatch T) (ts : List (List T))
    (h : env.net (dl.image ++ du.image) = NetOut.multi ts) :
    ssl_step env cfg glob_it dl du = none := by
  simp only [ssl_step, callNet, h]

theorem wsl_step_eq_some (env : WSLEnv T L) (cfg : WSLConfig) (glob_it : ℕ)
    (data : LabBatch T L) (p : List T)
    (h : primaryOut (env.net data.image) = some p) :
    wsl_step env cfg glob_it data =
      some { outputs := env.net data.image,
             primary := p,
             loss_sup := env.sup_loss data (env.net data.image) data.label_prob,
             loss_reg := env.ms_loss (env.net data.image) data.image,
             regular_w := wsl_applied_regular_w cfg glob_it,
             loss := env.sup_loss data (env.net data.image) data.label_prob
               + wsl_applied_regular_w cfg glob_it
                 * env.ms_loss (env.net data.image) data.image,
             dice_list := env.dice p data.label_prob } := by
  simp only [wsl_step, h]

theorem wsl_step_eq_none (env : WSLEnv T L) (cfg : WSLConfig) (glob_it : ℕ)
    (data : LabBatch T L) (h : primaryOut (env.net data.image) = none) :
    wsl_step env cfg glob_it data = none := by
  simp only [wsl_step, h]

/-- Claim C3: in the semi-supervised variant, for every global step strictly
below `iter_sup` the applied consistency weight is exactly `0` regardless of
the scheduler output; for every global step at or above `iter_sup` the applied
weight is exactly the ramp-up scheduler's output; `consis_w` defaults to `0.1`
and `iter_sup` defaults to `0`; and the weight used by a training step is
exactly this applied weight. -/
theorem ssl_weight_gate (cfg : SSLConfig) (glob_it : ℕ) :
    (glob_it < cfg.iter_sup.getD 0 → ssl_applied_consis_w cfg glob_it = 0) ∧
    (cfg.iter_sup.getD 0 ≤ glob_it →
      ssl_applied_consis_w cfg glob_it =
        get_consistency_weight_with_rampup (cfg.consis_w.getD 0.1) glob_it
          (cfg.ramp_up_length.getD (some (cfg.iter_max : ℝ)))) ∧
    (cfg.consis_w = none → cfg.iter_sup = none →
      ssl_applied_consis_w cfg glob_it =
        get_consistency_weight_with_rampup 0.1 glob_it
          (cfg.ramp_up_length.getD (some (cfg.iter_max : ℝ)))) ∧
    (∀ (T L : Type) (env : SSLEnv T L) (dl : LabBatch T L) (du : UnlabBatch T)
      (st : SSLStepOut T L), ssl_step env cfg glob_it dl du = some st →
        st.consis_w = ssl_applied_consis_w cfg glob_it) := by
  refine ⟨fun h => ?_, fun h => ?_, fun hc hi => ?_, ?_⟩
  · simp [ssl_applied_consis_w, h]
  · simp [ssl_applied_consis_w, Nat.not_lt.2 h]
  · simp [ssl_applied_consis_w, hc, hi]
  · intro T L env dl du st hst
    cases h : env.net (dl.image ++ du.image) with
    | single o =>
      rw [ssl_step_eq_single env cfg glob_it dl du o h] at hst
      cases hst
      rfl
    | multi ts =>
      rw [ssl_step_eq_none env cfg glob_it dl du ts h] at hst
      cases hst

/-- Witness for C3: with `iter_sup = 5`, the applied weight at step `3` is `0`,
and at step `7` it is the scheduler output (here the base weight `2`, since the
ramp length is `null`). -/
theorem ssl_weight_gate_witness :
    ssl_applied_consis_w sslCfgA 3 = 0 ∧
    ssl_applied_consis_w sslCfgA 7 = get_consistency_weight_with_rampup 2 7 none :=
  ⟨(ssl_weight_gate sslCfgA 3).1 (by norm_num [sslCfgA]),
   (ssl_weight_gate sslCfgA 7).2.1 (by norm_num [sslCfgA])⟩

/-- Claim C4: in the weakly-supervised variant the weight gate is a strict
greater-than comparison on the global step: for every step at or below
`iter_sup` (in particular at `iter_sup` itself) the applied regularization
weight is exactly `0`, while at step `iter_sup + 1` it is nonzero (indeed
positive) whenever the base weight is positive; and the weight used by a
training step is exactly this applied weight. -/
theorem wsl_weight_gate (cfg : WSLConfig) (hw : 0 < cfg.regularize_w.getD 0.1) :
    (∀ g : ℕ, g ≤ cfg.iter_sup.getD 0 → wsl_applied_regular_w cfg g = 0) ∧
    wsl_applied_regular_w cfg (cfg.iter_sup.getD 0) = 0 ∧
    0 < wsl_applied_regular_w cfg (cfg.iter_sup.getD 0 + 1) ∧
    wsl_applied_regular_w cfg (cfg.iter_sup.getD 0 + 1) ≠ 0 ∧
    (∀ (g : ℕ) (T L : Type) (env : WSLEnv T L) (data : LabBatch T L)
      (st : WSLStepOut T L), wsl_step env cfg g data = some st →
        st.regular_w = wsl_applied_regular_w cfg g) := by
  have hle : ∀ g : ℕ, g ≤ cfg.iter_sup.getD 0 → wsl_applied_regular_w cfg g = 0 := by
    intro g hg
    simp [wsl_applied_regular_w, Nat.not_lt.2 hg]
  have hpos : 0 < wsl_applied_regular_w cfg (cfg.iter_sup.getD 0 + 1) := by
    unfold wsl_applied_regular_w
    rw [if_pos (Nat.lt_succ_self _)]
    cases hr : cfg.ramp_up_length.getD (some (cfg.iter_max : ℝ)) with
    | none => exact hw
    | some len =>
      dsimp only
      by_cases hg : ((cfg.iter_sup.getD 0 + 1 : ℕ) : ℝ) < len
      · rw [if_pos hg]
        exact mul_pos hw (sigmoid_rampup_pos _ _)
      · rw [if_neg hg]
        exact hw
  refine ⟨hle, hle _ le_rfl, hpos, hpos.ne', ?_⟩
  intro g T L env data st hst
  cases h : primaryOut (env.net data.image) with
  | some p =>
    rw [wsl_step_eq_some env cfg g data p h] at hst
    cases hst
    rfl
  | none =>
    rw [wsl_step_eq_none env cfg g data h] at hst
    cases hst

/-- Witness for C4: with `iter_sup = 5` and the default base weight `0.1`, the
applied weight at step `5` is `0` and at step `6` it is nonzero. -/
theorem wsl_weight_gate_witness :
    wsl_applied_regular_w wslCfgA 5 = 0 ∧
    wsl_applied_regular_w wslCfgA 6 ≠ 0 :=
  ⟨(wsl_weight_gate wslCfgA (by norm_num [wslCfgA])).2.1,
   (wsl_weight_gate wslCfgA (by norm_num [wslCfgA])).2.2.2.1⟩

/-- Claim C1: in one semi-supervised training step with a labeled batch of
size `N0` and an unlabeled batch of size `N1`, the two image tensors are
concatenated along the sample axis, exactly one forward pass of the network is
run on the concatenated batch, and the output is split at `N0` into a first
part of exactly `N0` samples and a second part of exactly `N1` samples whose
concatenation is the output in its original order; the supervised loss is
computed from the first part against the labeled batch's labels.  (The
network's contract: it returns one prediction tensor with one sample per
input sample.) -/
theorem ssl_mixed_batch_step (env : SSLEnv T L) (cfg : SSLConfig)
    (glob_it : ℕ) (dl : LabBatch T L) (du : UnlabBatch T) (o : List T)
    (hnet : env.net (dl.image ++ du.image) = NetOut.single o)
    (hlen : o.length = dl.image.length + du.image.length) :
    ∃ st : SSLStepOut T L, ssl_step env cfg glob_it dl du = some st ∧
      st.fwd_count = 1 ∧
      env.net (dl.image ++ du.image) = NetOut.single st.outputs ∧
      st.p0 = st.outputs.take dl.image.length ∧
      st.p1 = st.outputs.drop dl.image.length ∧
      st.p0.length = dl.image.length ∧
      st.p1.length = du.image.length ∧
      st.p0 ++ st.p1 = st.outputs ∧
      st.loss_sup = env.sup_loss dl dl.image st.p0 dl.label_prob := by
  refine ⟨_, ssl_step_eq_single env cfg glob_it dl du o hnet, rfl, hnet, rfl,
    rfl, ?_, ?_, ?_, rfl⟩
  · rw [List.length_take, hlen]
    omega
  · rw [List.length_drop, hlen]
    omega
  · exact List.take_append_drop _ o

/-- Witness for C1: identity network, labeled batch of size 2, unlabeled
batch of size 1. -/
theorem ssl_mixed_batch_step_witness :
    ∃ st : SSLStepOut Unit Unit,
      ssl_step envId sslCfgA 0 unitLab2 unitUnlab = some st ∧
      st.fwd_count = 1 ∧
      st.p0.length = unitLab2.image.length ∧
      st.p1.length = unitUnlab.image.length ∧
      st.p0 ++ st.p1 = st.outputs := by
  obtain ⟨st, h1, h2, _, _, _, h6, h7, h8, _⟩ :=
    ssl_mixed_batch_step envId sslCfgA 0 unitLab2 unitUnlab [(), (), ()] rfl rfl
  exact ⟨st, h1, h2, h6, h7, h8⟩

/-- Claim C2: in every semi-supervised training step, the unsupervised
loss is the entropy loss evaluated on the entire unsplit forward-pass
output — the concatenation of both the labeled and the unlabeled
partitions — not only on the unlabeled partition. -/
theorem ssl_entropy_full_output (env : SSLEnv T L) (cfg : SSLConfig)
    (glob_it : ℕ) (dl : LabBatch T L) (du : UnlabBatch T) (o : List T)
    (hnet : env.net (dl.image ++ du.image) = NetOut.single o) :
    ∃ st : SSLStepOut T L, ssl_step env cfg glob_it dl du = some st ∧
      st.loss_unsup = env.entropy_loss st.outputs ∧
      st.outputs = st.p0 ++ st.p1 ∧
      st.loss_unsup = env.entropy_loss (st.p0 ++ st.p1) := by
  refine ⟨_, ssl_step_eq_single env cfg glob_it dl du o hnet, rfl,
    (List.take_append_drop _ o).symm, ?_⟩
  rw [List.take_append_drop]

/-- Witness for C2: identity network on a mixed batch of sizes 2 and 1. -/
theorem ssl_entropy_full_output_witness :
    ∃ st : SSLStepOut Unit Unit,
      ssl_step envId sslCfgA 0 unitLab2 unitUnlab = some st ∧
      st.loss_unsup = envId.entropy_loss (st.p0 ++ st.p1) := by
  obtain ⟨st, h1, _, _, h4⟩ :=
    ssl_entropy_full_output envId sslCfgA 0 unitLab2 unitUnlab [(), (), ()] rfl
  exact ⟨st, h1, h4⟩

/-- Counterexample to C8 as stated: in the semi-supervised variant a training
step whose network output is a tuple of tensors does not complete —
`torch.tensor_split` requires a single tensor, so the step fails before any
Dice computation (the `isinstance` guard of ssl_em.py lines 174-175 is
unreachable for tuple outputs). -/
theorem multi_head_ssl_counterexample :
    envMulti.net (unitLab.image ++ unitUnlab.image) =
      NetOut.multi [[(), ()], [(), ()]] ∧
    ssl_step envMulti sslCfg0 0 unitLab unitUnlab = none :=
  ⟨rfl, ssl_step_eq_none envMulti sslCfg0 0 unitLab unitUnlab _ rfl⟩

/-- Claim C8 (amended): in the weakly-supervised variant, a training step
whose network output is a nonempty tuple/list completes and only the first
element is treated as the primary segmentation map for the per-class Dice
computation; in the semi-supervised variant such a step does not complete,
because the output split requires a single tensor. -/
theorem multi_head_primary_for_dice
    (Tw Lw : Type) (envw : WSLEnv Tw Lw) (cfgw : WSLConfig) (gw : ℕ)
    (data : LabBatch Tw Lw) (t : List Tw) (ts : List (List Tw))
    (hw : envw.net data.image = NetOut.multi (t :: ts))
    (Ts Ls : Type) (envs : SSLEnv Ts Ls) (cfgs : SSLConfig) (gs : ℕ)
    (dl : LabBatch Ts Ls) (du : UnlabBatch Ts) (os : List (List Ts))
    (hs : envs.net (dl.image ++ du.image) = NetOut.multi os) :
    (∃ st : WSLStepOut Tw Lw, wsl_step envw cfgw gw data = some st ∧
      st.primary = t ∧ st.dice_list = envw.dice t data.label_prob) ∧
    ssl_step envs cfgs gs dl du = none := by
  constructor
  · have hp : primaryOut (envw.net data.image) = some t := by
      rw [hw]
      rfl
    exact ⟨_, wsl_step_eq_some envw cfgw gw data t hp, rfl, rfl⟩
  · exact ssl_step_eq_none envs cfgs gs dl du os hs

/-- Witness for the amended C8: concrete two-head networks in both
variants. -/
theorem multi_head_primary_for_dice_witness :
    (∃ st : WSLStepOut Unit Unit, wsl_step envWMulti wslCfgA 0 unitLab = some st ∧
      st.primary = [(), ()] ∧
      st.dice_list = envWMulti.dice [(), ()] unitLab.label_prob) ∧
    ssl_step envMulti sslCfg0 0 unitLab unitUnlab = none :=
  multi_head_primary_for_dice Unit Unit envWMulti wslCfgA 0 unitLab
    [(), ()] [[(), ()]] rfl
    Unit Unit envMulti sslCfg0 0 unitLab unitUnlab [[(), ()], [(), ()]] rfl

/-! Helper lemmas about the epoch loops. -/

theorem nextBatch_some (loader cursor : List B) (h : loader ≠ []) :
    ∃ b c, nextBatch loader cursor = some (b, c) := by
  cases cursor with
  | cons b rest => exact ⟨b, rest, rfl⟩
  | nil =>
    cases loader with
    | nil => exact absurd rfl h
    | cons b rest => exact ⟨b, rest, rfl⟩

theorem ssl_step_single_fields (env : SSLEnv T L) (cfg : SSLConfig)
    (glob_it : ℕ) (dl : LabBatch T L) (du : UnlabBatch T) (o : List T)
    (h : env.net (dl.image ++ du.image) = NetOut.single o) :
    ∃ st : SSLStepOut T L, ssl_step env cfg glob_it dl du = some st ∧
      st.consis_w = ssl_applied_consis_w cfg glob_it ∧
      st.loss = st.loss_sup + st.consis_w * st.loss_unsup ∧
      st.loss_unsup = env.entropy_loss st.outputs ∧
      st.dice_list = env.dice st.p0 dl.label_prob :=
  ⟨_, ssl_step_eq_single env cfg glob_it dl du o h, rfl, rfl, rfl, rfl⟩

theorem axisMean_length (rows : List (List ℝ)) :
    (axisMean rows).length = (rows.headD []).length := by
  simp [axisMean]

theorem axisMean_getD (rows : List (List ℝ)) (j : ℕ)
    (hj : j < (rows.headD []).length) :
    (axisMean rows).getD j 0 =
      (rows.map (fun r => r.getD j 0)).sum / rows.length := by
  unfold axisMean
  rw [List.getD_eq_getElem?_getD, List.getElem?_map, List.getElem?_range hj]
  rfl

theorem headD_length_of_forall (rows : List (List ℝ)) (K : ℕ)
    (hne : rows ≠ []) (h : ∀ r ∈ rows, r.length = K) :
    (rows.headD []).length = K := by
  cases rows with
  | nil => exact absurd rfl hne
  | cons r rest => exact h r (List.mem_cons_self r rest)

/-- Master invariant of the semi-supervised epoch loop: when both loaders are
nonempty and the network always returns a single tensor, `n` more iterations
always succeed, consume exactly one batch from each stream per iteration,
append exactly `n` step results, and accumulate each scalar as the sum of the
per-step values; every step uses the same applied consistency weight (the
global step is fixed during the epoch) and after at least one iteration the
`consis_w` loop variable holds that weight. -/
theorem ssl_loop_run (env : SSLEnv T L) (cfg : SSLConfig) (glob_it : ℕ)
    (loader_lab : List (LabBatch T L)) (loader_unlab : List (UnlabBatch T))
    (hlab : loader_lab ≠ []) (hunlab : loader_unlab ≠ [])
    (hnet : ∀ b : List T, ∃ o : List T, env.net b = NetOut.single o) :
    ∀ (n : ℕ) (acc : SSLAccum T L),
      ∃ (acc' : SSLAccum T L) (new : List (SSLStepOut T L)),
        ssl_epoch_loop env cfg glob_it loader_lab loader_unlab n acc = some acc' ∧
        acc'.steps = acc.steps ++ new ∧
        new.length = n ∧
        acc'.train_loss = acc.train_loss + (new.map SSLStepOut.loss).sum ∧
        acc'.train_loss_sup
          = acc.train_loss_sup + (new.map SSLStepOut.loss_sup).sum ∧
        acc'.train_loss_unsup
          = acc.train_loss_unsup + (new.map SSLStepOut.loss_unsup).sum ∧
        acc'.dice_rows = acc.dice_rows ++ new.map SSLStepOut.dice_list ∧
        acc'.lab_used = acc.lab_used + n ∧
        acc'.unlab_used = acc.unlab_used + n ∧
        (∀ st ∈ new, st.consis_w = ssl_applied_consis_w cfg glob_it ∧
          st.loss = st.loss_sup + st.consis_w * st.loss_unsup ∧
          st.loss_unsup = env.entropy_loss st.outputs ∧
          ∃ y : List L, st.dice_list = env.dice st.p0 y) ∧
        acc'.last_w = (if n = 0 then acc.last_w
          else some (ssl_applied_consis_w cfg glob_it)) := by
  intro n
  induction n with
  | zero =>
    intro acc
    exact ⟨acc, [], rfl, by simp, rfl, by simp, by simp, by simp, by simp,
      rfl, rfl, by simp, by simp⟩
  | succ n ih =>
    intro acc
    obtain ⟨dl, cl, hdl⟩ := nextBatch_some loader_lab acc.cur_lab hlab
    obtain ⟨du, cu, hdu⟩ := nextBatch_some loader_unlab acc.cur_unlab hunlab
    obtain ⟨o, ho⟩ := hnet (dl.image ++ du.image)
    obtain ⟨stv, hstep, hw, hls, hlu, hdice⟩ :=
      ssl_step_single_fields env cfg glob_it dl du o ho
    obtain ⟨acc', new', h1, h2, h3, h4, h5, h6, h7, h8, h9, h10, h11⟩ :=
      ih { train_loss := acc.train_loss + stv.loss,
           train_loss_sup := acc.train_loss_sup + stv.loss_sup,
           train_loss_unsup := acc.train_loss_unsup + stv.loss_unsup,
           dice_rows := acc.dice_rows ++ [stv.dice_list],
           last_w := some stv.consis_w,
           cur_lab := cl,
           cur_unlab := cu,
           lab_used := acc.lab_used + 1,
           unlab_used := acc.unlab_used + 1,
           steps := acc.steps ++ [stv] }
    have hloop : ssl_epoch_loop env cfg glob_it loader_lab loader_unlab
        (Nat.succ n) acc = some acc' := by
      rw [ssl_epoch_loop, hdl, hdu]
      dsimp only
      rw [hstep]
      exact h1
    refine ⟨acc', stv :: new', hloop, ?_, ?_, ?_, ?_, ?_, ?_, ?_, ?_, ?_, ?_⟩
    · rw [h2]
      simp
    · simp [h3]
    · rw [h4]
      simp [add_assoc]
    · rw [h5]
      simp [add_assoc]
    · rw [h6]
      simp [add_assoc]
    · rw [h7]
      simp
    · rw [h8]
      dsimp only
      omega
    · rw [h9]
      dsimp only
      omega
    · intro st hst
      rcases List.mem_cons.1 hst with hst | hst
      · subst hst
        exact ⟨hw, hls, hlu, dl.label_prob, hdice⟩
      · exact h10 st hst
    · rw [if_neg (Nat.succ_ne_zero n), h11]
      by_cases hn : n = 0
      · rw [if_pos hn]
        rw [hw]
      · rw [if_neg hn]

theorem wsl_step_some_fields (env : WSLEnv T L) (cfg : WSLConfig)
    (glob_it : ℕ) (data : LabBatch T L) (p : List T)
    (h : primaryOut (env.net data.image) = some p) :
    ∃ st : WSLStepOut T L, wsl_step env cfg glob_it data = some st ∧
      st.regular_w = wsl_applied_regular_w cfg glob_it ∧
      st.loss = st.loss_sup + st.regular_w * st.loss_reg ∧
      st.loss_reg = env.ms_loss st.outputs data.image ∧
      st.dice_list = env.dice st.primary data.label_prob :=
  ⟨_, wsl_step_eq_some env cfg glob_it data p h, rfl, rfl, rfl, rfl⟩

/-- Master invariant of the weakly-supervised epoch loop, analogous to
`ssl_loop_run`. -/
theorem wsl_loop_run (env : WSLEnv T L) (cfg : WSLConfig) (glob_it : ℕ)
    (loader : List (LabBatch T L)) (hloader : loader ≠ [])
    (hnet : ∀ b : List T, ∃ p : List T, primaryOut (env.net b) = some p) :
    ∀ (n : ℕ) (acc : WSLAccum T L),
      ∃ (acc' : WSLAccum T L) (new : List (WSLStepOut T L)),
        wsl_epoch_loop env cfg glob_it loader n acc = some acc' ∧
        acc'.steps = acc.steps ++ new ∧
        new.length = n ∧
        acc'.train_loss = acc.train_loss + (new.map WSLStepOut.loss).sum ∧
        acc'.train_loss_sup
          = acc.train_loss_sup + (new.map WSLStepOut.loss_sup).sum ∧
        acc'.train_loss_reg
          = acc.train_loss_reg + (new.map WSLStepOut.loss_reg).sum ∧
        acc'.dice_rows = acc.dice_rows ++ new.map WSLStepOut.dice_list ∧
        acc'.used = acc.used + n ∧
        (∀ st ∈ new, st.regular_w = wsl_applied_regular_w cfg glob_it ∧
          st.loss = st.loss_sup + st.regular_w * st.loss_reg ∧
          ∃ y : List L, st.dice_list = env.dice st.primary y) ∧
        acc'.last_w = (if n = 0 then acc.last_w
          else some (wsl_applied_regular_w cfg glob_it)) := by
  intro n
  induction n with
  | zero =>
    intro acc
    exact ⟨acc, [], rfl, by simp, rfl, by simp, by simp, by simp, by simp,
      rfl, by simp, by simp⟩
  | succ n ih =>
    intro acc
    obtain ⟨data, c, hdata⟩ := nextBatch_some loader acc.cur hloader
    obtain ⟨p, hp⟩ := hnet data.image
    obtain ⟨stv, hstep, hw, hls, hlr, hdice⟩ :=
      wsl_step_some_fields env cfg glob_it data p hp
    obtain ⟨acc', new', h1, h2, h3, h4, h5, h6, h7, h8, h9, h10⟩ :=
      ih { train_loss := acc.train_loss + stv.loss,
           train_loss_sup := acc.train_loss_sup + stv.loss_sup,
           train_loss_reg := acc.train_loss_reg + stv.loss_reg,
           dice_rows := acc.dice_rows ++ [stv.dice_list],
           last_w := some stv.regular_w,
           cur := c,
           used := acc.used + 1,
           steps := acc.steps ++ [stv] }
    have hloop : wsl_epoch_loop env cfg glob_it loader (Nat.succ n) acc
        = some acc' := by
      rw [wsl_epoch_loop, hdata]
      dsimp only
      rw [hstep]
      exact h1
    refine ⟨acc', stv :: new', hloop, ?_, ?_, ?_, ?_, ?_, ?_, ?_, ?_, ?_⟩
    · rw [h2]
      simp
    · simp [h3]
    · rw [h4]
      simp [add_assoc]
    · rw [h5]
      simp [add_assoc]
    · rw [h6]
      simp [add_assoc]
    · rw [h7]
      simp
    · rw [h8]
      dsimp only
      omega
    · intro st hst
      rcases List.mem_cons.1 hst with hst | hst
      · subst hst
        exact ⟨hw, hls, data.label_prob, hdice⟩
      · exact h9 st hst
    · rw [if_neg (Nat.succ_ne_zero n), h10]
      by_cases hn : n = 0
      · rw [if_pos hn]
        rw [hw]
      · rw [if_neg hn]

/-- Epoch-level consequence of `ssl_loop_run`: the record returned by
`ssl_training` and its relation to the per-step results. -/
theorem ssl_training_spec (env : SSLEnv T L) (cfg : SSLConfig) (g iv : ℕ)
    (ll : List (LabBatch T L)) (lu : List (UnlabBatch T))
    (cl0 : List (LabBatch T L)) (cu0 : List (UnlabBatch T))
    (hl : ll ≠ []) (hu : lu ≠ [])
    (hnet : ∀ b : List T, ∃ o : List T, env.net b = NetOut.single o)
    (hiv : 0 < iv) :
    ∃ (sc : SSLScalars) (acc : SSLAccum T L),
      ssl_training env cfg g iv ll lu cl0 cu0 = some (sc, acc) ∧
      acc.steps.length = iv ∧
      acc.lab_used = iv ∧
      acc.unlab_used = iv ∧
      acc.dice_rows = acc.steps.map SSLStepOut.dice_list ∧
      sc.loss = (acc.steps.map SSLStepOut.loss).sum / (iv : ℝ) ∧
      sc.loss_sup = (acc.steps.map SSLStepOut.loss_sup).sum / (iv : ℝ) ∧
      sc.loss_unsup = (acc.steps.map SSLStepOut.loss_unsup).sum / (iv : ℝ) ∧
      sc.consis_w = ssl_applied_consis_w cfg g ∧
      sc.class_dice = axisMean acc.dice_rows ∧
      sc.avg_dice = listMean sc.class_dice ∧
      (∀ st ∈ acc.steps, st.consis_w = ssl_applied_consis_w cfg g ∧
        st.loss = st.loss_sup + st.consis_w * st.loss_unsup ∧
        st.loss_unsup = env.entropy_loss st.outputs ∧
        ∃ y : List L, st.dice_list = env.dice st.p0 y) := by
  obtain ⟨acc', new, h1, h2, h3, h4, h5, h6, h7, h8, h9, h10, h11⟩ :=
    ssl_loop_run env cfg g ll lu hl hu hnet iv
      { train_loss := 0, train_loss_sup := 0, train_loss_unsup := 0,
        dice_rows := [], last_w := none, cur_lab := cl0, cur_unlab := cu0,
        lab_used := 0, unlab_used := 0, steps := [] }
  dsimp only at h2 h4 h5 h6 h7 h8 h9 h11
  rw [List.nil_append] at h2 h7
  rw [zero_add] at h4 h5 h6 h8 h9
  rw [if_neg hiv.ne'] at h11
  have htr : ssl_training env cfg g iv ll lu cl0 cu0 =
      some ({ loss := acc'.train_loss / (iv : ℝ),
              loss_sup := acc'.train_loss_sup / (iv : ℝ),
              loss_unsup := acc'.train_loss_unsup / (iv : ℝ),
              consis_w := ssl_applied_consis_w cfg g,
              avg_dice := listMean (axisMean acc'.dice_rows),
              class_dice := axisMean acc'.dice_rows }, acc') := by
    simp only [ssl_training]
    rw [h1]
    dsimp only
    rw [h11]
  refine ⟨_, acc', htr, ?_, h8, h9, ?_, ?_, ?_, ?_, rfl, rfl, rfl, ?_⟩
  · rw [h2]
    exact h3
  · rw [h7, h2]
  · dsimp only
    rw [h4, h2]
  · dsimp only
    rw [h5, h2]
  · dsimp only
    rw [h6, h2]
  · intro st hst
    rw [h2] at hst
    exact h10 st hst

/-- Epoch-level consequence of `wsl_loop_run`, analogous to
`ssl_training_spec`. -/
theorem wsl_training_spec (env : WSLEnv T L) (cfg : WSLConfig) (g iv : ℕ)
    (ll : List (LabBatch T L)) (c0 : List (LabBatch T L)) (hl : ll ≠ [])
    (hnet : ∀ b : List T, ∃ p : List T, primaryOut (env.net b) = some p)
    (hiv : 0 < iv) :
    ∃ (sc : WSLScalars) (acc : WSLAccum T L),
      wsl_training env cfg g iv ll c0 = some (sc, acc) ∧
      acc.steps.length = iv ∧
      acc.used = iv ∧
      acc.dice_rows = acc.steps.map WSLStepOut.dice_list ∧
      sc.loss = (acc.steps.map WSLStepOut.loss).sum / (iv : ℝ) ∧
      sc.loss_sup = (acc.steps.map WSLStepOut.loss_sup).sum / (iv : ℝ) ∧
      sc.loss_reg = (acc.steps.map WSLStepOut.loss_reg).sum / (iv : ℝ) ∧
      sc.regular_w = wsl_applied_regular_w cfg g ∧
      sc.class_dice = axisMean acc.dice_rows ∧
      sc.avg_dice = listMean sc.class_dice ∧
      (∀ st ∈ acc.steps, st.regular_w = wsl_applied_regular_w cfg g ∧
        st.loss = st.loss_sup + st.regular_w * st.loss_reg ∧
        ∃ y : List L, st.dice_list = env.dice st.primary y) := by
  obtain ⟨acc', new, h1, h2, h3, h4, h5, h6, h7, h8, h9, h10⟩ :=
    wsl_loop_run env cfg g ll hl hnet iv
      { train_loss := 0, train_loss_sup := 0, train_loss_reg := 0,
        dice_rows := [], last_w := none, cur := c0, used := 0, steps := [] }
  dsimp only at h2 h4 h5 h6 h7 h8 h10
  rw [List.nil_append] at h2 h7
  rw [zero_add] at h4 h5 h6 h8
  rw [if_neg hiv.ne'] at h10
  have htr : wsl_training env cfg g iv ll c0 =
      some ({ loss := acc'.train_loss / (iv : ℝ),
              loss_sup := acc'.train_loss_sup / (iv : ℝ),
              loss_reg := acc'.train_loss_reg / (iv : ℝ),
              regular_w := wsl_applied_regular_w cfg g,
              avg_dice := listMean (axisMean acc'.dice_rows),
              class_dice := axisMean acc'.dice_rows }, acc') := by
    simp only [wsl_training]
    rw [h1]
    dsimp only
    rw [h10]
  refine ⟨_, acc', htr, ?_, h8, ?_, ?_, ?_, ?_, rfl, rfl, rfl, ?_⟩
  · rw [h2]
    exact h3
  · rw [h7, h2]
  · dsimp only
    rw [h4, h2]
  · dsimp only
    rw [h5, h2]
  · dsimp only
    rw [h6, h2]
  · intro st hst
    rw [h2] at hst
    exact h9 st hst

/-- Claim C6: over the `iter_valid` iterations of one semi-supervised
training epoch, exhaustion of either the labeled or the unlabeled stream never
terminates the loop or propagates an error: a pull from an exhausted iterator
silently restarts it over the same dataset and takes that dataset's first
batch, and the epoch consumes exactly one labeled and one unlabeled batch per
iteration, `iter_valid` times — even when `iter_valid` exceeds a dataset's
size, so a stream wraps several times. -/
theorem ssl_dual_stream_restart (env : SSLEnv T L) (cfg : SSLConfig)
    (g iv : ℕ) (ll : List (LabBatch T L)) (lu : List (UnlabBatch T))
    (cl0 : List (LabBatch T L)) (cu0 : List (UnlabBatch T))
    (hl : ll ≠ []) (hu : lu ≠ [])
    (hnet : ∀ b : List T, ∃ o : List T, env.net b = NetOut.single o)
    (hiv : 0 < iv) :
    (∀ (d : LabBatch T L) (ds cs : List (LabBatch T L)) (c : LabBatch T L),
      nextBatch (d :: ds) ([] : List (LabBatch T L)) = some (d, ds) ∧
      nextBatch (d :: ds) (c :: cs) = some (c, cs)) ∧
    ∃ (sc : SSLScalars) (acc : SSLAccum T L),
      ssl_training env cfg g iv ll lu cl0 cu0 = some (sc, acc) ∧
      acc.lab_used = iv ∧
      acc.unlab_used = iv ∧
      acc.steps.length = iv := by
  refine ⟨fun d ds cs c => ⟨rfl, rfl⟩, ?_⟩
  obtain ⟨sc, acc, h1, h2, h3, h4, _⟩ :=
    ssl_training_spec env cfg g iv ll lu cl0 cu0 hl hu hnet hiv
  exact ⟨sc, acc, h1, h3, h4, h2⟩

/-- Witness for C6: one-batch datasets and `iter_valid = 5`, so both streams
wrap four times and still five batches are consumed from each. -/
theorem ssl_dual_stream_restart_witness :
    ∃ (sc : SSLScalars) (acc : SSLAccum Unit Unit),
      ssl_training envId sslCfgA 0 5 [unitLab] [unitUnlab] [] [] =
        some (sc, acc) ∧
      acc.lab_used = 5 ∧
      acc.unlab_used = 5 ∧
      acc.steps.length = 5 :=
  (ssl_dual_stream_restart envId sslCfgA 0 5 [unitLab] [unitUnlab] [] []
    (List.cons_ne_nil _ _) (List.cons_ne_nil _ _) (fun b => ⟨b, rfl⟩)
    (by norm_num)).2

/-- Claim C7: in both variants, the epoch aggregator divides each summed
scalar loss (total, supervised, auxiliary) by the iteration count
`iter_valid`; `class_dice` is the axis-wise (per-class) mean of the per-step
Dice vectors and has length `K = class_num` (the length the Dice pipeline
produces); and `avg_dice` equals the mean of the `class_dice` vector. -/
theorem epoch_aggregation (K : ℕ) :
    (∀ (T L : Type) (env : SSLEnv T L) (cfg : SSLConfig) (g iv : ℕ)
      (ll : List (LabBatch T L)) (lu : List (UnlabBatch T))
      (cl0 : List (LabBatch T L)) (cu0 : List (UnlabBatch T)),
      ll ≠ [] → lu ≠ [] →
      (∀ b : List T, ∃ o : List T, env.net b = NetOut.single o) →
      (∀ (p : List T) (y : List L), (env.dice p y).length = K) →
      0 < iv →
      ∃ (sc : SSLScalars) (acc : SSLAccum T L),
        ssl_training env cfg g iv ll lu cl0 cu0 = some (sc, acc) ∧
        sc.loss = (acc.steps.map SSLStepOut.loss).sum / (iv : ℝ) ∧
        sc.loss_sup = (acc.steps.map SSLStepOut.loss_sup).sum / (iv : ℝ) ∧
        sc.loss_unsup = (acc.steps.map SSLStepOut.loss_unsup).sum / (iv : ℝ) ∧
        sc.class_dice.length = K ∧
        (∀ j : ℕ, j < K → sc.class_dice.getD j 0 =
          (acc.steps.map (fun st => st.dice_list.getD j 0)).sum / (iv : ℝ)) ∧
        sc.avg_dice = listMean sc.class_dice ∧
        sc.avg_dice = sc.class_dice.sum / (K : ℝ)) ∧
    (∀ (T L : Type) (env : WSLEnv T L) (cfg : WSLConfig) (g iv : ℕ)
      (ll : List (LabBatch T L)) (c0 : List (LabBatch T L)),
      ll ≠ [] →
      (∀ b : List T, ∃ p : List T, primaryOut (env.net b) = some p) →
      (∀ (p : List T) (y : List L), (env.dice p y).length = K) →
      0 < iv →
      ∃ (sc : WSLScalars) (acc : WSLAccum T L),
        wsl_training env cfg g iv ll c0 = some (sc, acc) ∧
        sc.loss = (acc.steps.map WSLStepOut.loss).sum / (iv : ℝ) ∧
        sc.loss_sup = (acc.steps.map WSLStepOut.loss_sup).sum / (iv : ℝ) ∧
        sc.loss_reg = (acc.steps.map WSLStepOut.loss_reg).sum / (iv : ℝ) ∧
        sc.class_dice.length = K ∧
        (∀ j : ℕ, j < K → sc.class_dice.getD j 0 =
          (acc.steps.map (fun st => st.dice_list.getD j 0)).sum / (iv : ℝ)) ∧
        sc.avg_dice = listMean sc.class_dice ∧
        sc.avg_dice = sc.class_dice.sum / (K : ℝ)) := by
  constructor
  · intro T L env cfg g iv ll lu cl0 cu0 hl hu hnet hdK hiv
    obtain ⟨sc, acc, h1, hlen, _, _, hdrows, hls, hlsup, hlunsup, _, hcls,
      havg, hsteps⟩ := ssl_training_spec env cfg g iv ll lu cl0 cu0 hl hu hnet hiv
    have hrowsK : ∀ r ∈ acc.dice_rows, r.length = K := by
      intro r hr
      rw [hdrows] at hr
      obtain ⟨st, hst, rfl⟩ := List.mem_map.1 hr
      obtain ⟨-, -, -, y, hy⟩ := hsteps st hst
      rw [hy]
      exact hdK _ _
    have hrowslen : acc.dice_rows.length = iv := by
      rw [hdrows, List.length_map, hlen]
    have hne : acc.dice_rows ≠ [] :=
      List.length_pos.1 (by rw [hrowslen]; exact hiv)
    have hhead : (acc.dice_rows.headD []).length = K :=
      headD_length_of_forall _ K hne hrowsK
    have hclslen : sc.class_dice.length = K := by
      rw [hcls, axisMean_length, hhead]
    refine ⟨sc, acc, h1, hls, hlsup, hlunsup, hclslen, ?_, havg, ?_⟩
    · intro j hj
      rw [hcls, axisMean_getD _ j (by rw [hhead]; exact hj), hdrows,
        List.map_map, List.length_map, hlen]
      rfl
    · rw [havg, listMean, hclslen]
  · intro T L env cfg g iv ll c0 hl hnet hdK hiv
    obtain ⟨sc, acc, h1, hlen, _, hdrows, hls, hlsup, hlreg, _, hcls,
      havg, hsteps⟩ := wsl_training_spec env cfg g iv ll c0 hl hnet hiv
    have hrowsK : ∀ r ∈ acc.dice_rows, r.length = K := by
      intro r hr
      rw [hdrows] at hr
      obtain ⟨st, hst, rfl⟩ := List.mem_map.1 hr
      obtain ⟨-, -, y, hy⟩ := hsteps st hst
      rw [hy]
      exact hdK _ _
    have hrowslen : acc.dice_rows.length = iv := by
      rw [hdrows, List.length_map, hlen]
    have hne : acc.dice_rows ≠ [] :=
      List.length_pos.1 (by rw [hrowslen]; exact hiv)
    have hhead : (acc.dice_rows.headD []).length = K :=
      headD_length_of_forall _ K hne hrowsK
    have hclslen : sc.class_dice.length = K := by
      rw [hcls, axisMean_length, hhead]
    refine ⟨sc, acc, h1, hls, hlsup, hlreg, hclslen, ?_, havg, ?_⟩
    · intro j hj
      rw [hcls, axisMean_getD _ j (by rw [hhead]; exact hj), hdrows,
        List.map_map, List.length_map, hlen]
      rfl
    · rw [havg, listMean, hclslen]

/-- Witness for C7: identity networks, `K = 2`, one-batch datasets,
`iter_valid = 3`, in both variants. -/
theorem epoch_aggregation_witness :
    (∃ (sc : SSLScalars) (acc : SSLAccum Unit Unit),
      ssl_training envId sslCfgA 0 3 [unitLab] [unitUnlab] [] [] =
        some (sc, acc) ∧
      sc.class_dice.length = 2 ∧
      sc.avg_dice = listMean sc.class_dice) ∧
    (∃ (sc : WSLScalars) (acc : WSLAccum Unit Unit),
      wsl_training envWId wslCfgA 0 3 [unitLab] [] = some (sc, acc) ∧
      sc.class_dice.length = 2 ∧
      sc.avg_dice = listMean sc.class_dice) := by
  constructor
  · obtain ⟨sc, acc, h1, _, _, _, h5, _, h7, _⟩ :=
      (epoch_aggregation 2).1 Unit Unit envId sslCfgA 0 3 [unitLab] [unitUnlab]
        [] [] (List.cons_ne_nil _ _) (List.cons_ne_nil _ _)
        (fun b => ⟨b, rfl⟩) (fun p y => rfl) (by norm_num)
    exact ⟨sc, acc, h1, h5, h7⟩
  · obtain ⟨sc, acc, h1, _, _, _, h5, _, h7, _⟩ :=
      (epoch_aggregation 2).2 Unit Unit envWId wslCfgA 0 3 [unitLab] []
        (List.cons_ne_nil _ _) (fun b => ⟨b, rfl⟩) (fun p y => rfl)
        (by norm_num)
    exact ⟨sc, acc, h1, h5, h7⟩

/-- The per-step weights of an epoch are all equal (the global step is fixed
within one `training()` call), so their sum divided by the iteration count is
that common value. -/
theorem const_map_avg {α : Type} (l : List α) (f : α → ℝ) (w : ℝ) (n : ℕ)
    (hlen : l.length = n) (hconst : ∀ x ∈ l, f x = w) (hn : 0 < n) :
    (l.map f).sum / (n : ℝ) = w := by
  have hrep : l.map f = List.replicate n w := by
    refine List.eq_replicate_iff.2 ⟨by rw [List.length_map, hlen], ?_⟩
    intro b hb
    obtain ⟨x, hx, rfl⟩ := List.mem_map.1 hb
    exact hconst x hx
  rw [hrep, List.sum_replicate, nsmul_eq_mul,
    mul_div_cancel_left₀ _ (Nat.cast_ne_zero.2 hn.ne' : (n : ℝ) ≠ 0)]

/-- Claim C9: every entry of the scalar epoch record produced by one training
epoch — the three loss entries, the weight entry (`consis_w` / `regular_w`),
and the Dice entries — equals the average over the epoch's `iter_valid`
iterations of its per-step value.  (For the weight entry the code stores the
loop variable's final value, which equals the per-step average because the
global step — hence the applied weight — is constant within one epoch.) -/
theorem epoch_record_averaged (K : ℕ) :
    (∀ (T L : Type) (env : SSLEnv T L) (cfg : SSLConfig) (g iv : ℕ)
      (ll : List (LabBatch T L)) (lu : List (UnlabBatch T))
      (cl0 : List (LabBatch T L)) (cu0 : List (UnlabBatch T)),
      ll ≠ [] → lu ≠ [] →
      (∀ b : List T, ∃ o : List T, env.net b = NetOut.single o) →
      (∀ (p : List T) (y : List L), (env.dice p y).length = K) →
      0 < iv →
      ∃ (sc : SSLScalars) (acc : SSLAccum T L),
        ssl_training env cfg g iv ll lu cl0 cu0 = some (sc, acc) ∧
        acc.steps.length = iv ∧
        sc.loss = (acc.steps.map SSLStepOut.loss).sum / (iv : ℝ) ∧
        sc.loss_sup = (acc.steps.map SSLStepOut.loss_sup).sum / (iv : ℝ) ∧
        sc.loss_unsup = (acc.steps.map SSLStepOut.loss_unsup).sum / (iv : ℝ) ∧
        sc.consis_w = (acc.steps.map SSLStepOut.consis_w).sum / (iv : ℝ) ∧
        (∀ j : ℕ, j < K → sc.class_dice.getD j 0 =
          (acc.steps.map (fun st => st.dice_list.getD j 0)).sum / (iv : ℝ)) ∧
        sc.avg_dice = listMean sc.class_dice) ∧
    (∀ (T L : Type) (env : WSLEnv T L) (cfg : WSLConfig) (g iv : ℕ)
      (ll : List (LabBatch T L)) (c0 : List (LabBatch T L)),
      ll ≠ [] →
      (∀ b : List T, ∃ p : List T, primaryOut (env.net b) = some p) →
      (∀ (p : List T) (y : List L), (env.dice p y).length = K) →
      0 < iv →
      ∃ (sc : WSLScalars) (acc : WSLAccum T L),
        wsl_training env cfg g iv ll c0 = some (sc, acc) ∧
        acc.steps.length = iv ∧
        sc.loss = (acc.steps.map WSLStepOut.loss).sum / (iv : ℝ) ∧
        sc.loss_sup = (acc.steps.map WSLStepOut.loss_sup).sum / (iv : ℝ) ∧
        sc.loss_reg = (acc.steps.map WSLStepOut.loss_reg).sum / (iv : ℝ) ∧
        sc.regular_w = (acc.steps.map WSLStepOut.regular_w).sum / (iv : ℝ) ∧
        (∀ j : ℕ, j < K → sc.class_dice.getD j 0 =
          (acc.steps.map (fun st => st.dice_list.getD j 0)).sum / (iv : ℝ)) ∧
        sc.avg_dice = listMean sc.class_dice) := by
  constructor
  · intro T L env cfg g iv ll lu cl0 cu0 hl hu hnet hdK hiv
    obtain ⟨sc, acc, h1, hlen, _, _, hdrows, hls, hlsup, hlunsup, hw, hcls,
      havg, hsteps⟩ := ssl_training_spec env cfg g iv ll lu cl0 cu0 hl hu hnet hiv
    have hwavg : sc.consis_w = (acc.steps.map SSLStepOut.consis_w).sum / (iv : ℝ) := by
      rw [hw, const_map_avg acc.steps SSLStepOut.consis_w
        (ssl_applied_consis_w cfg g) iv hlen (fun st hst => (hsteps st hst).1) hiv]
    have hrowsK : ∀ r ∈ acc.dice_rows, r.length = K := by
      intro r hr
      rw [hdrows] at hr
      obtain ⟨st, hst, rfl⟩ := List.mem_map.1 hr
      obtain ⟨-, -, -, y, hy⟩ := hsteps st hst
      rw [hy]
      exact hdK _ _
    have hne : acc.dice_rows ≠ [] :=
      List.length_pos.1 (by rw [hdrows, List.length_map, hlen]; exact hiv)
    have hhead : (acc.dice_rows.headD []).length = K :=
      headD_length_of_forall _ K hne hrowsK
    refine ⟨sc, acc, h1, hlen, hls, hlsup, hlunsup, hwavg, ?_, havg⟩
    intro j hj
    rw [hcls, axisMean_getD _ j (by rw [hhead]; exact hj), hdrows,
      List.map_map, List.length_map, hlen]
    rfl
  · intro T L env cfg g iv ll c0 hl hnet hdK hiv
    obtain ⟨sc, acc, h1, hlen, _, hdrows, hls, hlsup, hlreg, hw, hcls,
      havg, hsteps⟩ := wsl_training_spec env cfg g iv ll c0 hl hnet hiv
    have hwavg : sc.regular_w = (acc.steps.map WSLStepOut.regular_w).sum / (iv : ℝ) := by
      rw [hw, const_map_avg acc.steps WSLStepOut.regular_w
        (wsl_applied_regular_w cfg g) iv hlen (fun st hst => (hsteps st hst).1) hiv]
    have hrowsK : ∀ r ∈ acc.dice_rows, r.length = K := by
      intro r hr
      rw [hdrows] at hr
      obtain ⟨st, hst, rfl⟩ := List.mem_map.1 hr
      obtain ⟨-, -, y, hy⟩ := hsteps st hst
      rw [hy]
      exact hdK _ _
    have hne : acc.dice_rows ≠ [] :=
      List.length_pos.1 (by rw [hdrows, List.length_map, hlen]; exact hiv)
    have hhead : (acc.dice_rows.headD []).length = K :=
      headD_length_of_forall _ K hne hrowsK
    refine ⟨sc, acc, h1, hlen, hls, hlsup, hlreg, hwavg, ?_, havg⟩
    intro j hj
    rw [hcls, axisMean_getD _ j (by rw [hhead]; exact hj), hdrows,
      List.map_map, List.length_map, hlen]
    rfl

/-- Witness for C9: identity networks, `K = 2`, one-batch datasets,
`iter_valid = 4`, in both variants; in particular the recorded weight entry is
the average of the per-step weights. -/
theorem epoch_record_averaged_witness :
    (∃ (sc : SSLScalars) (acc : SSLAccum Unit Unit),
      ssl_training envId sslCfgA 0 4 [unitLab] [unitUnlab] [] [] =
        some (sc, acc) ∧
      sc.consis_w = (acc.steps.map SSLStepOut.consis_w).sum / (4 : ℝ)) ∧
    (∃ (sc : WSLScalars) (acc : WSLAccum Unit Unit),
      wsl_training envWId wslCfgA 0 4 [unitLab] [] = some (sc, acc) ∧
      sc.regular_w = (acc.steps.map WSLStepOut.regular_w).sum / (4 : ℝ)) := by
  constructor
  · obtain ⟨sc, acc, h1, _, _, _, _, h6, _, _⟩ :=
      (epoch_record_averaged 2).1 Unit Unit envId sslCfgA 0 4 [unitLab]
        [unitUnlab] [] [] (List.cons_ne_nil _ _) (List.cons_ne_nil _ _)
        (fun b => ⟨b, rfl⟩) (fun p y => rfl) (by norm_num)
    exact ⟨sc, acc, h1, by exact_mod_cast h6⟩
  · obtain ⟨sc, acc, h1, _, _, _, _, h6, _, _⟩ :=
      (epoch_record_averaged 2).2 Unit Unit envWId wslCfgA 0 4 [unitLab] []
        (List.cons_ne_nil _ _) (fun b => ⟨b, rfl⟩) (fun p y => rfl)
        (by norm_num)
    exact ⟨sc, acc, h1, by exact_mod_cast h6⟩

/-! Helper lemmas: the step and the epoch fail or succeed independently of the
weight configuration, and the accumulated auxiliary loss never depends on
it. -/

theorem ssl_loop_unsup_indep (env : SSLEnv T L) (cfg1 cfg2 : SSLConfig)
    (g1 g2 : ℕ) (ll : List (LabBatch T L)) (lu : List (UnlabBatch T)) :
    ∀ (n : ℕ) (acc1 acc2 : SSLAccum T L),
      acc1.cur_lab = acc2.cur_lab → acc1.cur_unlab = acc2.cur_unlab →
      acc1.train_loss_unsup = acc2.train_loss_unsup →
      acc1.last_w.isSome = acc2.last_w.isSome →
      (ssl_epoch_loop env cfg1 g1 ll lu n acc1 = none ∧
        ssl_epoch_loop env cfg2 g2 ll lu n acc2 = none) ∨
      (∃ a1 a2, ssl_epoch_loop env cfg1 g1 ll lu n acc1 = some a1 ∧
        ssl_epoch_loop env cfg2 g2 ll lu n acc2 = some a2 ∧
        a1.train_loss_unsup = a2.train_loss_unsup ∧
        a1.last_w.isSome = a2.last_w.isSome) := by
  intro n
  induction n with
  | zero =>
    intro acc1 acc2 hc1 hc2 hul hlw
    exact Or.inr ⟨acc1, acc2, rfl, rfl, hul, hlw⟩
  | succ n ih =>
    intro acc1 acc2 hc1 hc2 hul hlw
    rw [ssl_epoch_loop, ssl_epoch_loop, hc1, hc2]
    cases hb1 : nextBatch ll acc2.cur_lab with
    | none => exact Or.inl ⟨rfl, rfl⟩
    | some pair =>
      obtain ⟨dl, cl⟩ := pair
      dsimp only
      cases hb2 : nextBatch lu acc2.cur_unlab with
      | none => exact Or.inl ⟨rfl, rfl⟩
      | some pair2 =>
        obtain ⟨du, cu⟩ := pair2
        dsimp only
        cases h : env.net (dl.image ++ du.image) with
        | multi ts =>
          rw [ssl_step_eq_none env cfg1 g1 dl du ts h,
            ssl_step_eq_none env cfg2 g2 dl du ts h]
          exact Or.inl ⟨rfl, rfl⟩
        | single o =>
          rw [ssl_step_eq_single env cfg1 g1 dl du o h,
            ssl_step_eq_single env cfg2 g2 dl du o h]
          dsimp only
          exact ih _ _ rfl rfl (by dsimp only; rw [hul]) rfl

theorem wsl_loop_reg_indep (env : WSLEnv T L) (cfg1 cfg2 : WSLConfig)
    (g1 g2 : ℕ) (ll : List (LabBatch T L)) :
    ∀ (n : ℕ) (acc1 acc2 : WSLAccum T L),
      acc1.cur = acc2.cur →
      acc1.train_loss_reg = acc2.train_loss_reg →
      acc1.last_w.isSome = acc2.last_w.isSome →
      (wsl_epoch_loop env cfg1 g1 ll n acc1 = none ∧
        wsl_epoch_loop env cfg2 g2 ll n acc2 = none) ∨
      (∃ a1 a2, wsl_epoch_loop env cfg1 g1 ll n acc1 = some a1 ∧
        wsl_epoch_loop env cfg2 g2 ll n acc2 = some a2 ∧
        a1.train_loss_reg = a2.train_loss_reg ∧
        a1.last_w.isSome = a2.last_w.isSome) := by
  intro n
  induction n with
  | zero =>
    intro acc1 acc2 hc hr hlw
    exact Or.inr ⟨acc1, acc2, rfl, rfl, hr, hlw⟩
  | succ n ih =>
    intro acc1 acc2 hc hr hlw
    rw [wsl_epoch_loop, wsl_epoch_loop, hc]
    cases hb : nextBatch ll acc2.cur with
    | none => exact Or.inl ⟨rfl, rfl⟩
    | some pair =>
      obtain ⟨data, c⟩ := pair
      dsimp only
      cases hp : primaryOut (env.net data.image) with
      | none =>
        rw [wsl_step_eq_none env cfg1 g1 data hp,
          wsl_step_eq_none env cfg2 g2 data hp]
        exact Or.inl ⟨rfl, rfl⟩
      | some p =>
        rw [wsl_step_eq_some env cfg1 g1 data p hp,
          wsl_step_eq_some env cfg2 g2 data p hp]
        dsimp only
        exact ih _ _ rfl (by dsimp only; rw [hr]) rfl

theorem ssl_training_unsup_indep (env : SSLEnv T L) (cfg1 cfg2 : SSLConfig)
    (g1 g2 iv : ℕ) (ll : List (LabBatch T L)) (lu : List (UnlabBatch T))
    (cl0 : List (LabBatch T L)) (cu0 : List (UnlabBatch T)) :
    Option.map (fun r => r.1.loss_unsup)
        (ssl_training env cfg1 g1 iv ll lu cl0 cu0)
      = Option.map (fun r => r.1.loss_unsup)
        (ssl_training env cfg2 g2 iv ll lu cl0 cu0) := by
  simp only [ssl_training]
  rcases ssl_loop_unsup_indep env cfg1 cfg2 g1 g2 ll lu iv
      { train_loss := 0, train_loss_sup := 0, train_loss_unsup := 0,
        dice_rows := [], last_w := none, cur_lab := cl0, cur_unlab := cu0,
        lab_used := 0, unlab_used := 0, steps := [] }
      { train_loss := 0, train_loss_sup := 0, train_loss_unsup := 0,
        dice_rows := [], last_w := none, cur_lab := cl0, cur_unlab := cu0,
        lab_used := 0, unlab_used := 0, steps := [] }
      rfl rfl rfl rfl with ⟨hn1, hn2⟩ | ⟨a1, a2, h1, h2, hul, hlw⟩
  · rw [hn1, hn2]
  · rw [h1, h2]
    dsimp only
    cases ha1 : a1.last_w with
    | none =>
      cases ha2 : a2.last_w with
      | none => rfl
      | some w2 =>
        rw [ha1, ha2] at hlw
        simp at hlw
    | some w1 =>
      cases ha2 : a2.last_w with
      | none =>
        rw [ha1, ha2] at hlw
        simp at hlw
      | some w2 =>
        simp [hul]

theorem wsl_training_reg_indep (env : WSLEnv T L) (cfg1 cfg2 : WSLConfig)
    (g1 g2 iv : ℕ) (ll : List (LabBatch T L)) (c0 : List (LabBatch T L)) :
    Option.map (fun r => r.1.loss_reg) (wsl_training env cfg1 g1 iv ll c0)
      = Option.map (fun r => r.1.loss_reg) (wsl_training env cfg2 g2 iv ll c0) := by
  simp only [wsl_training]
  rcases wsl_loop_reg_indep env cfg1 cfg2 g1 g2 ll iv
      { train_loss := 0, train_loss_sup := 0, train_loss_reg := 0,
        dice_rows := [], last_w := none, cur := c0, used := 0, steps := [] }
      { train_loss := 0, train_loss_sup := 0, train_loss_reg := 0,
        dice_rows := [], last_w := none, cur := c0, used := 0, steps := [] }
      rfl rfl rfl with ⟨hn1, hn2⟩ | ⟨a1, a2, h1, h2, hr, hlw⟩
  · rw [hn1, hn2]
  · rw [h1, h2]
    dsimp only
    cases ha1 : a1.last_w with
    | none =>
      cases ha2 : a2.last_w with
      | none => rfl
      | some w2 =>
        rw [ha1, ha2] at hlw
        simp at hlw
    | some w1 =>
      cases ha2 : a2.last_w with
      | none =>
        rw [ha1, ha2] at hlw
        simp at hlw
      | some w2 =>
        simp [hr]

/-- Claim C10: in both variants the auxiliary loss accumulated into the epoch
record (`loss_unsup` / `loss_reg`) is the raw, unweighted value returned by
the auxiliary loss function; the scheduled weight multiplies it only inside
the per-step combined total `loss = loss_sup + w * loss_aux`; consequently the
reported auxiliary-loss average is independent of the weight configuration
(base weight, `iter_sup` gate, ramp length) and of the global step. -/
theorem aux_loss_unweighted :
    (∀ (T L : Type) (env : SSLEnv T L) (cfg1 cfg2 : SSLConfig) (g1 g2 iv : ℕ)
      (ll : List (LabBatch T L)) (lu : List (UnlabBatch T))
      (cl0 : List (LabBatch T L)) (cu0 : List (UnlabBatch T)),
      Option.map (fun r => r.1.loss_unsup)
          (ssl_training env cfg1 g1 iv ll lu cl0 cu0)
        = Option.map (fun r => r.1.loss_unsup)
          (ssl_training env cfg2 g2 iv ll lu cl0 cu0)) ∧
    (∀ (T L : Type) (env : SSLEnv T L) (cfg : SSLConfig) (g : ℕ)
      (dl : LabBatch T L) (du : UnlabBatch T) (st : SSLStepOut T L),
      ssl_step env cfg g dl du = some st →
        st.loss_unsup = env.entropy_loss st.outputs ∧
        st.loss = st.loss_sup + st.consis_w * st.loss_unsup ∧
        st.consis_w = ssl_applied_consis_w cfg g) ∧
    (∀ (T L : Type) (env : WSLEnv T L) (cfg1 cfg2 : WSLConfig) (g1 g2 iv : ℕ)
      (ll : List (LabBatch T L)) (c0 : List (LabBatch T L)),
      Option.map (fun r => r.1.loss_reg) (wsl_training env cfg1 g1 iv ll c0)
        = Option.map (fun r => r.1.loss_reg)
          (wsl_training env cfg2 g2 iv ll c0)) ∧
    (∀ (T L : Type) (env : WSLEnv T L) (cfg : WSLConfig) (g : ℕ)
      (data : LabBatch T L) (st : WSLStepOut T L),
      wsl_step env cfg g data = some st →
        st.loss_reg = env.ms_loss st.outputs data.image ∧
        st.loss = st.loss_sup + st.regular_w * st.loss_reg ∧
        st.regular_w = wsl_applied_regular_w cfg g) := by
  refine ⟨?_, ?_, ?_, ?_⟩
  · intro T L env cfg1 cfg2 g1 g2 iv ll lu cl0 cu0
    exact ssl_training_unsup_indep env cfg1 cfg2 g1 g2 iv ll lu cl0 cu0
  · intro T L env cfg g dl du st hst
    cases h : env.net (dl.image ++ du.image) with
    | single o =>
      rw [ssl_step_eq_single env cfg g dl du o h] at hst
      cases hst
      exact ⟨rfl, rfl, rfl⟩
    | multi ts =>
      rw [ssl_step_eq_none env cfg g dl du ts h] at hst
      cases hst
  · intro T L env cfg1 cfg2 g1 g2 iv ll c0
    exact wsl_training_reg_indep env cfg1 cfg2 g1 g2 iv ll c0
  · intro T L env cfg g data st hst
    cases h : primaryOut (env.net data.image) with
    | some p =>
      rw [wsl_step_eq_some env cfg g data p h] at hst
      cases hst
      exact ⟨rfl, rfl, rfl⟩
    | none =>
      rw [wsl_step_eq_none env cfg g data h] at hst
      cases hst

/-- Witness for C10: two concrete weight configurations (base weight `2` with
`iter_sup = 5` at step `0`, versus base weight `3` with `iter_sup = 0` at step
`7`) leave the reported auxiliary-loss entry unchanged, and a concrete step
satisfies the per-step decomposition. -/
theorem aux_loss_unweighted_witness :
    (Option.map (fun r => r.1.loss_unsup)
        (ssl_training envId sslCfgA 0 3 [unitLab] [unitUnlab] [] [])
      = Option.map (fun r => r.1.loss_unsup)
        (ssl_training envId sslCfgB 7 3 [unitLab] [unitUnlab] [] [])) ∧
    (Option.map (fun r => r.1.loss_reg)
        (wsl_training envWId wslCfgA 0 3 [unitLab] [])
      = Option.map (fun r => r.1.loss_reg)
        (wsl_training envWId wslCfgB 7 3 [unitLab] [])) ∧
    (∃ st : SSLStepOut Unit Unit,
      ssl_step envId sslCfgA 0 unitLab unitUnlab = some st ∧
      st.loss = st.loss_sup + st.consis_w * st.loss_unsup) := by
  refine ⟨aux_loss_unweighted.1 Unit Unit envId sslCfgA sslCfgB 0 7 3
      [unitLab] [unitUnlab] [] [],
    aux_loss_unweighted.2.2.1 Unit Unit envWId wslCfgA wslCfgB 0 7 3
      [unitLab] [],
    ?_⟩
  obtain ⟨st, hst, _, _, _, _⟩ :=
    ssl_step_single_fields envId sslCfgA 0 unitLab unitUnlab [(), ()] rfl
  exact ⟨st, hst,
    (aux_loss_unweighted.2.1 Unit Unit envId sslCfgA 0 unitLab unitUnlab st
      hst).2.1⟩
